import Mathlib

/-!
Shallow embedding of the scoring and smoothing pipeline of
src/site_selector_bangalore.py.

Coordinates are exact rationals (the Python code uses floats; the claims
under study are about the structure of the computation, which is exact).
Calls into external services and libraries (geocoding, OSM fetches, the
fitted kernel density, coordinate reprojection, shapely polygon
construction) are modelled as explicit function parameters: each one is a
value the surrounding code consumes, and a fallible call is an
Except-valued parameter mirroring the try/except sites of the source.
-/

set_option maxRecDepth 40000

namespace SiteSelector

/-- Planar point, as in the projected CRS the pipeline works in. -/
abbrev Pt := ℚ × ℚ

/-! ### Stable sorting

Python's sorted() is a stable sort; sorted(xs, key=k, reverse=True) is the
unique permutation of xs that is descending on k and keeps the original
order of key-ties.  Stable insertion sort produces exactly that
permutation, and is structurally recursive, so the kernel can evaluate it
on concrete inputs. -/

/-- Insert x into l, placing it before the first element y with leb x y. -/
def insertStable {α : Type} (leb : α → α → Bool) (x : α) : List α → List α
  | [] => [x]
  | y :: ys => if leb x y then x :: y :: ys else y :: insertStable leb x ys

/-- Stable sort with respect to the boolean comparison leb
(models Python sorted with the corresponding key/reverse). -/
def sortStable {α : Type} (leb : α → α → Bool) : List α → List α
  | [] => []
  | x :: xs => insertStable leb x (sortStable leb xs)

/-! ### Chaikin smoothing: _cut_ring, smooth_polygon, chaikin_smooth -/

/-- The pair (Q, R) of interpolated points produced for an edge (p0, p1):
Q at the 1/4 position and R at the 3/4 position. -/
def chaikinQR (p0 p1 : Pt) : List Pt :=
  [((3 : ℚ)/4 * p0.1 + 1/4 * p1.1, (3 : ℚ)/4 * p0.2 + 1/4 * p1.2),
   ((1 : ℚ)/4 * p0.1 + 3/4 * p1.1, (1 : ℚ)/4 * p0.2 + 3/4 * p1.2)]

/-- The new points of one _cut_ring pass, before closing: for each i in
range(n-1) the pair (coords[i], coords[(i+1) % (n-1)]) produces its Q and R
interpolation points. -/
def cutPairs (coords : List Pt) : List Pt :=
  ((List.range (coords.length - 1)).map (fun i =>
    chaikinQR (coords.getD i (0, 0))
      (coords.getD ((i + 1) % (coords.length - 1)) (0, 0)))).flatten

/-- One Chaikin corner-cutting pass over a coordinate ring, translated from
the inner function _cut_ring: rings with fewer than 3 coordinates are
returned unchanged; otherwise the new points are produced edge by edge and
the first new point is appended at the end. -/
def cutRing (coords : List Pt) : List Pt :=
  if coords.length < 3 then coords
  else cutPairs coords ++ [(cutPairs coords).headD (0, 0)]

/-- Polygon as shapely represents it: an exterior coordinate ring and a
list of interior coordinate rings. -/
structure RingPoly where
  exterior : List Pt
  interiors : List (List Pt)
deriving DecidableEq

/-- Translation of the inner function smooth_polygon: the exterior and each
interior ring are corner-cut (iterations) times, then the shapely Polygon
constructor is called inside try/except, falling back to the original
polygon on failure.  The constructor is modelled by the boolean parameter
valid: when valid accepts the new rings, construction succeeds and yields
exactly those rings; otherwise it raises and the original polygon is
returned. -/
def smooth_polygon (valid : List Pt → List (List Pt) → Bool) (iterations : ℕ)
    (poly : RingPoly) : RingPoly :=
  if valid (cutRing^[iterations] poly.exterior)
      (poly.interiors.map (fun r => cutRing^[iterations] r)) then
    ⟨cutRing^[iterations] poly.exterior,
     poly.interiors.map (fun r => cutRing^[iterations] r)⟩
  else poly

/-- Geometry as dispatched on by chaikin_smooth: a Polygon, a MultiPolygon,
or any other geometry type (carried opaquely). -/
inductive Geometry : Type
  | polygon (p : RingPoly)
  | multiPolygon (ps : List RingPoly)
  | other (tag : String)
deriving DecidableEq

/-- Translation of chaikin_smooth: None is returned as is, Polygons and the
parts of MultiPolygons are smoothed, and any other geometry is returned
unchanged. -/
def chaikin_smooth (valid : List Pt → List (List Pt) → Bool)
    (geom : Option Geometry) (iterations : ℕ) : Option Geometry :=
  match geom with
  | none => none
  | some (Geometry.polygon p) =>
      some (Geometry.polygon (smooth_polygon valid iterations p))
  | some (Geometry.multiPolygon ps) =>
      some (Geometry.multiPolygon (ps.map (smooth_polygon valid iterations)))
  | some (Geometry.other t) => some (Geometry.other t)

/-- Modelled from the claim wording (C3), not from the source: each edge
(p0, p1) of the closed ring, i.e. each adjacent pair of coordinates, is
replaced by the two interpolated points 0.75*p0 + 0.25*p1 and
0.25*p0 + 0.75*p1. -/
def specPairs (coords : List Pt) : List Pt :=
  ((coords.zip coords.tail).map (fun e =>
    [((3 : ℚ)/4 * e.1.1 + 1/4 * e.2.1, (3 : ℚ)/4 * e.1.2 + 1/4 * e.2.2),
     ((1 : ℚ)/4 * e.1.1 + 3/4 * e.2.1, (1 : ℚ)/4 * e.1.2 + 3/4 * e.2.2)])).flatten

/-- Modelled from the claim wording (C3): the corner-cutting pass replaces
every edge by its two interpolation points and closes the resulting ring by
appending its first point at the end. -/
def specCut (coords : List Pt) : List Pt :=
  specPairs coords ++ [(specPairs coords).headD (0, 0)]

/-- A coordinate ring is closed when its first and last coordinates agree
(shapely rings are always stored closed). -/
def IsClosedRing (c : List Pt) : Prop := c.head? = c.getLast?

/-! ### compute_candidates -/

/-- Result of ox.geocode_to_gdf for compute_candidates, after reprojection:
the membership test of the unioned area polygon (pois.geometry.within) and
its total bounds. -/
structure Area : Type where
  contains : Pt → Bool
  minx : ℚ
  miny : ℚ
  maxx : ℚ
  maxy : ℚ

/-- External dependencies of compute_candidates.  geocode is
ox.geocode_to_gdf(place) inside its try/except; fetch t is
ox.geometries_from_place(place, tags=t) inside its try/except, each
returned geometry stood for by its centroid in the projected CRS; kde pts
is the density fitted on pts, x ↦ exp(kde.score_samples(x)); toWGS is the
reprojection from the projected CRS to EPSG:4326. -/
structure CandInputs : Type where
  geocode : Except Unit Area
  fetch : String → Except Unit (List Pt)
  kde : List Pt → Pt → ℚ
  toWGS : Pt → Pt

/-- Keys of CATEGORY_TO_TAGS.  Each category maps to a distinct OSM tag
dictionary; tags are identified here with their category names. -/
def knownCategories : List String :=
  ["shops", "banks", "hospitals", "schools", "clinics",
   "bus_stops", "theatres", "restaurants", "pharmacies", "parking"]

/-- CATEGORY_TO_TAGS.get. -/
def tagFor (cat : String) : Option String :=
  if cat ∈ knownCategories then some cat else none

/-- Default categories substituted when selected_categories is falsy. -/
def defaultCategories : List String :=
  ["shops", "banks", "hospitals", "schools", "bus_stops"]

/-- Category list actually used: the default list when the selection is
empty (Python: if not selected_categories). -/
def catsOf (selected : List String) : List String :=
  if selected.isEmpty then defaultCategories else selected

/-- Per-tag fetched frames after the per-tag try/except: a frame is kept
when the fetch succeeds and is non-empty; a failing or empty fetch is
skipped (continue). -/
def poiFrames (fetch : String → Except Unit (List Pt)) (cats : List String) :
    List (List Pt) :=
  (cats.filterMap tagFor).filterMap (fun t =>
    match fetch t with
    | Except.ok g => if g.isEmpty then none else some g
    | Except.error _ => none)

/-- Concatenated POI centroids restricted to the geocoded area polygon
(pois[pois.geometry.within(area_poly)]). -/
def poisOf (fetch : String → Except Unit (List Pt)) (cats : List String)
    (area : Area) : List Pt :=
  (poiFrames fetch cats).flatten.filter area.contains

/-- np.arange(start, stop, step) for a positive step: the points
start + i * step for 0 ≤ i < ceil((stop - start) / step). -/
def arangeQ (start stop step : ℚ) : List ℚ :=
  if 0 < step ∧ start < stop then
    (List.range (Int.toNat (Rat.ceil ((stop - start) / step)))).map
      (fun i => start + (i : ℚ) * step)
  else []

/-- Density grid entry Z[yi][xi] (0 outside the grid; all accesses made by
the pipeline are in bounds). -/
def zAt (Z : List (List ℚ)) (yi xi : ℕ) : ℚ := (Z.getD yi []).getD xi 0

/-- Boundary index handling of scipy.ndimage.maximum_filter in its default
reflect mode: (d c b a | a b c d | d c b a). -/
def reflectIdx (n : ℕ) (i : ℤ) : ℕ :=
  if i < 0 then Int.toNat (-i - 1)
  else if (n : ℤ) ≤ i then Int.toNat (2 * (n : ℤ) - 1 - i)
  else Int.toNat i

/-- Maximum of a non-empty list of rationals (np .max(); 0 for []). -/
def qmaxList (l : List ℚ) : ℚ :=
  match l with
  | [] => 0
  | h :: t => t.foldl max h

/-- Minimum of a non-empty list of rationals (np .min(); 0 for []). -/
def qminList (l : List ℚ) : ℚ :=
  match l with
  | [] => 0
  | h :: t => t.foldl min h

/-- The nine offsets of a 3x3 window, in row-major order. -/
def nbhdOffsets : List (ℤ × ℤ) :=
  [(-1, -1), (-1, 0), (-1, 1), (0, -1), (0, 0), (0, 1), (1, -1), (1, 0), (1, 1)]

/-- scipy.ndimage.maximum_filter(Z, size=3) at cell (yi, xi): the maximum
of the 3x3 window with reflect boundary handling. -/
def maxFilter3 (Z : List (List ℚ)) (yi xi : ℕ) : ℚ :=
  qmaxList (nbhdOffsets.map (fun d =>
    zAt Z (reflectIdx Z.length ((yi : ℤ) + d.1))
          (reflectIdx (Z.getD 0 []).length ((xi : ℤ) + d.2))))

/-- np.percentile(zs, 75) with the default linear interpolation: the value
at fractional position 3 * (n - 1) / 4 of the ascending sort. -/
def percentile75 (zs : List ℚ) : ℚ :=
  let s := sortStable (fun a b => decide (a ≤ b)) zs
  let n := s.length
  let pos : ℚ := 3 * ((n : ℚ) - 1) / 4
  let i := Int.toNat ⌊pos⌋
  let lo := s.getD i 0
  let hi := s.getD (i + 1) lo
  lo + (pos - (i : ℚ)) * (hi - lo)

/-- Indices (yi, xi) where local_max holds: Z equals its 3x3 maximum filter
and strictly exceeds the 75th percentile of all grid values.  The order is
that of np.where: row-major, rows ascending. -/
def peakIndices (Z : List (List ℚ)) (perc : ℚ) : List (ℕ × ℕ) :=
  ((List.range Z.length).map (fun yi =>
    (List.range (Z.getD 0 []).length).filterMap (fun xi =>
      if zAt Z yi xi = maxFilter3 Z yi xi ∧ perc < zAt Z yi xi
      then some (yi, xi) else none))).flatten

/-- Candidate dict: grid location, raw density score, competitor count. -/
structure Candidate : Type where
  x : ℚ
  y : ℚ
  score : ℚ
  competitors : ℕ
deriving DecidableEq

/-- Squared Euclidean distance in the projected CRS. -/
def distSq (p q : Pt) : ℚ := (p.1 - q.1)^2 + (p.2 - q.2)^2

/-- The candidate list built from the density grid: one candidate per peak
cell, scored with the cell's density value, its competitor count the number
of POI centroids strictly inside the circular buffer of radius
competitorRadius around the peak (pois.geometry.within(pt.buffer(r))). -/
def rawCandidates (pois : List Pt) (dens : Pt → ℚ) (xv yv : List ℚ)
    (competitorRadius : ℚ) : List Candidate :=
  let Z := yv.map (fun gy => xv.map (fun gx => dens (gx, gy)))
  let perc := percentile75 Z.flatten
  (peakIndices Z perc).map (fun yx =>
    let gx := xv.getD yx.2 0
    let gy := yv.getD yx.1 0
    { x := gx, y := gy, score := zAt Z yx.1 yx.2,
      competitors :=
        pois.countP (fun p => decide (distSq p (gx, gy) < competitorRadius^2)) })

/-- The 1e-9 guard added to the min-max normalization divisors. -/
def epsDiv : ℚ := 1 / 1000000000

/-- Final score of candidate c relative to the whole candidate list:
0.7 * score_norm + 0.3 * comp_norm, score_norm the min-max normalized raw
score and comp_norm one minus the min-max normalized competitor count, both
divisors padded with 1e-9. -/
def finalScore (cands : List Candidate) (c : Candidate) : ℚ :=
  (0.7 : ℚ) * ((c.score - qminList (cands.map (fun d => d.score))) /
      (qmaxList (cands.map (fun d => d.score)) -
        qminList (cands.map (fun d => d.score)) + epsDiv)) +
    (0.3 : ℚ) * (1 -
      ((c.competitors : ℚ) - qminList (cands.map (fun d => (d.competitors : ℚ)))) /
      (qmaxList (cands.map (fun d => (d.competitors : ℚ))) -
        qminList (cands.map (fun d => (d.competitors : ℚ))) + epsDiv))

/-- Emitted GeoJSON feature: properties final and competitors, and a point
geometry in EPSG:4326. -/
structure Feature : Type where
  final : ℚ
  competitors : ℕ
  geometry : Pt
deriving DecidableEq

/-- The grid x coordinates of a run. -/
def xvOf (area : Area) (gridSize : ℚ) : List ℚ :=
  arangeQ area.minx area.maxx gridSize

/-- The grid y coordinates of a run. -/
def yvOf (area : Area) (gridSize : ℚ) : List ℚ :=
  arangeQ area.miny area.maxy gridSize

/-- The candidates of a run, before scoring. -/
def candsOf (inp : CandInputs) (area : Area) (selected : List String)
    (gridSize competitorRadius : ℚ) : List Candidate :=
  rawCandidates (poisOf inp.fetch (catsOf selected) area)
    (inp.kde (poisOf inp.fetch (catsOf selected) area))
    (xvOf area gridSize) (yvOf area gridSize) competitorRadius

/-- The candidates of a run paired with their final scores. -/
def scoredOf (inp : CandInputs) (area : Area) (selected : List String)
    (gridSize competitorRadius : ℚ) : List (Candidate × ℚ) :=
  (candsOf inp area selected gridSize competitorRadius).map
    (fun c => (c, finalScore (candsOf inp area selected gridSize competitorRadius) c))

/-- Translation of compute_candidates.  The returned FeatureCollection is
its feature list; every early return of the literal FeatureCollection with
empty features is the empty list. -/
def computeCandidates (inp : CandInputs) (selected : List String)
    (gridSize competitorRadius : ℚ) (topN : ℕ) : List Feature :=
  match inp.geocode with
  | Except.error _ => []
  | Except.ok area =>
    if (poiFrames inp.fetch (catsOf selected)).isEmpty then []
    else if (poisOf inp.fetch (catsOf selected) area).length < 3 then []
    else if (xvOf area gridSize).isEmpty || (yvOf area gridSize).isEmpty then []
    else if (candsOf inp area selected gridSize competitorRadius).isEmpty then []
    else
      ((sortStable (fun a b => decide (b.2 ≤ a.2))
          (scoredOf inp area selected gridSize competitorRadius)).take topN).map
        (fun p =>
          { final := p.2, competitors := p.1.competitors,
            geometry := inp.toWGS (p.1.x, p.1.y) })

/-! ### load_and_smooth_area -/

/-- One feature of the geocoded GeoDataFrame as load_and_smooth_area sees
it: its geometry, and whether the shape/mapping round-trip of the
per-feature try block succeeds (parseOk false models shape or mapping
raising for that feature). -/
structure AreaFeat : Type where
  geometry : Geometry
  parseOk : Bool
deriving DecidableEq

/-- Python: "India" in area_name. -/
def containsIndia (s : String) : Bool := (s.splitOn "India").length != 1

/-- Translation of load_and_smooth_area: geocode the (", India"-suffixed)
query inside try/except returning empty features on failure, then smooth
each feature's geometry, leaving a feature untouched when its conversion
raises (continue). -/
def load_and_smooth_area (geocode : String → Except Unit (List AreaFeat))
    (valid : List Pt → List (List Pt) → Bool) (area_name : String)
    (smooth_iters : ℕ) : List AreaFeat :=
  let q := if containsIndia area_name then area_name else area_name ++ ", India"
  match geocode q with
  | Except.error _ => []
  | Except.ok feats =>
    feats.map (fun f =>
      if f.parseOk then
        { f with geometry :=
            (chaikin_smooth valid (some f.geometry) smooth_iters).getD f.geometry }
      else f)

/-! ### get_districts_for_state -/

/-- Name post-processing shared by both district sources: strip, drop empty
strings, deduplicate (Python set), sort case-insensitively. -/
def processNames (names : List String) : List String :=
  sortStable
    (fun a b => decide (a.toLower < b.toLower) || (a.toLower == b.toLower))
    (((names.map String.trim).filter (fun s => s != "")).dedup)

/-- The Overpass fallback of get_districts_for_state: http is the
requests.post call inside try/except (status code and the district names
extracted from the response elements); a failed request or a non-200 status
yields the empty list. -/
def overpassLookup (http : Except Unit (ℕ × List String)) : List String :=
  match http with
  | Except.error _ => []
  | Except.ok resp => if resp.1 = 200 then processNames resp.2 else []

/-- Translation of get_districts_for_state: when the local district file
exists and reads/parses successfully its names are returned (fileRead is
the data.get lookup chain for the state, defaulting to []); when the file
is missing or its try block raises, the Overpass fallback is consulted. -/
def get_districts_for_state (fileExists : Bool)
    (fileRead : Except Unit (List String))
    (http : Except Unit (ℕ × List String)) : List String :=
  if fileExists then
    match fileRead with
    | Except.ok names => processNames names
    | Except.error _ => overpassLookup http
  else overpassLookup http

/-! ### Concrete inputs used by witnesses and counterexamples -/

/-- A concrete square area of side 1000 m containing every point. -/
def exArea : Area := ⟨fun _ => true, 0, 0, 1000, 1000⟩

/-- A concrete fetch: the banks query succeeds with three centroids, every
other query raises a network error. -/
def exFetch : String → Except Unit (List Pt) := fun t =>
  if t = "banks" then Except.ok [(500, 500), (400, 400), (600, 600)]
  else Except.error ()

/-- A concrete fitted density: a unit spike at (500, 500). -/
def exKde : List Pt → Pt → ℚ := fun _ p => if p = (500, 500) then 1 else 0

/-- A concrete input bundle whose pipeline run yields one candidate. -/
def exInp : CandInputs := ⟨Except.ok exArea, exFetch, exKde, fun p => p⟩

/-- A concrete fetch with only two centroids inside the area. -/
def exFetchTwo : String → Except Unit (List Pt) := fun t =>
  if t = "banks" then Except.ok [(400, 400), (600, 600)]
  else Except.error ()

/-- A concrete input bundle with too few POIs for density fitting. -/
def exInpTwo : CandInputs := ⟨Except.ok exArea, exFetchTwo, exKde, fun p => p⟩

/-- Concrete two-candidate list with equal raw scores. -/
def exCands : List Candidate := [⟨0, 0, 1, 5⟩, ⟨1, 1, 1, 2⟩]

/-- Concrete density grid with a single interior spike. -/
def exZ : List (List ℚ) := [[0, 0, 0], [0, 5, 0], [0, 0, 0]]

/-- Concrete closed square ring. -/
def exSquare : RingPoly :=
  ⟨[((0 : ℚ), (0 : ℚ)), (4, 0), (4, 4), (0, 4), (0, 0)], []⟩

example : xvOf exArea 250 = [0, 250, 500, 750] := by with_unfolding_all decide
example : poisOf exInp.fetch (catsOf ["shops", "banks"]) exArea
    = [(500, 500), (400, 400), (600, 600)] := by with_unfolding_all decide
example : candsOf exInp exArea ["shops", "banks"] 250 500
    = [⟨500, 500, 1, 3⟩] := by with_unfolding_all decide
example : computeCandidates exInp ["shops", "banks"] 250 500 12
    = [⟨(0.3 : ℚ), 3, (500, 500)⟩] := by with_unfolding_all decide

/-! ### Lemmas about the stable sort -/

theorem mem_insertStable {α : Type} (leb : α → α → Bool) (x a : α)
    (l : List α) : a ∈ insertStable leb x l ↔ a = x ∨ a ∈ l := by
  induction l with
  | nil => simp [insertStable]
  | cons y ys ih =>
    unfold insertStable
    cases h : leb x y with
    | true => simp [List.mem_cons]
    | false =>
      simp only [Bool.false_eq_true, if_false, List.mem_cons, ih]
      tauto

theorem mem_sortStable {α : Type} (leb : α → α → Bool) (a : α) (l : List α) :
    a ∈ sortStable leb l ↔ a ∈ l := by
  induction l with
  | nil => simp [sortStable]
  | cons x xs ih => simp [sortStable, mem_insertStable, ih, List.mem_cons]

theorem length_insertStable {α : Type} (leb : α → α → Bool) (x : α)
    (l : List α) : (insertStable leb x l).length = l.length + 1 := by
  induction l with
  | nil => simp [insertStable]
  | cons y ys ih =>
    unfold insertStable
    cases h : leb x y with
    | true => simp
    | false => simp [ih]

theorem length_sortStable {α : Type} (leb : α → α → Bool) (l : List α) :
    (sortStable leb l).length = l.length := by
  induction l with
  | nil => rfl
  | cons x xs ih => simp [sortStable, length_insertStable, ih]

theorem pairwise_insertStable_key {α : Type} (key : α → ℚ) (x : α)
    (l : List α) (hl : l.Pairwise (fun a b => key b ≤ key a)) :
    (insertStable (fun a b => decide (key b ≤ key a)) x l).Pairwise
      (fun a b => key b ≤ key a) := by
  induction l with
  | nil => simp [insertStable]
  | cons y ys ih =>
    rw [List.pairwise_cons] at hl
    unfold insertStable
    by_cases h : key y ≤ key x
    · rw [if_pos (by simpa using h)]
      refine List.Pairwise.cons ?_ (List.Pairwise.cons hl.1 hl.2)
      intro z hz
      rcases List.mem_cons.mp hz with rfl | hz
      · exact h
      · exact le_trans (hl.1 z hz) h
    · rw [if_neg (by simpa using h)]
      refine List.Pairwise.cons ?_ (ih hl.2)
      intro z hz
      rcases (mem_insertStable _ _ _ _).mp hz with rfl | hz
      · exact le_of_not_le h
      · exact hl.1 z hz

theorem pairwise_sortStable_key {α : Type} (key : α → ℚ) (l : List α) :
    (sortStable (fun a b => decide (key b ≤ key a)) l).Pairwise
      (fun a b => key b ≤ key a) := by
  induction l with
  | nil => simp [sortStable]
  | cons x xs ih => exact pairwise_insertStable_key key x _ ih

/-! ### Small lemmas about cutRing -/

theorem cutRing_short {coords : List Pt} (h : coords.length < 3) :
    cutRing coords = coords := by
  simp [cutRing, h]

theorem iterate_cutRing_short {coords : List Pt} (h : coords.length < 3) :
    ∀ k : ℕ, cutRing^[k] coords = coords := by
  intro k
  induction k with
  | zero => rfl
  | succ n ih => rw [Function.iterate_succ_apply, cutRing_short h, ih]

/-! ### Claim theorems -/

/-- C10: chaikin_smooth is the identity on degenerate inputs: it maps None
to None and leaves any geometry that is neither a Polygon nor a
MultiPolygon unchanged, and _cut_ring leaves a ring with fewer than 3
coordinates unchanged, so such a ring is never subdivided regardless of
the iteration count. -/
theorem chaikin_smooth_degenerate (valid : List Pt → List (List Pt) → Bool)
    (k : ℕ) :
    chaikin_smooth valid none k = none ∧
    (∀ t : String,
      chaikin_smooth valid (some (Geometry.other t)) k
        = some (Geometry.other t)) ∧
    (∀ coords : List Pt, coords.length < 3 → cutRing^[k] coords = coords) := by
  refine ⟨rfl, fun t => rfl, fun coords h => iterate_cutRing_short h k⟩

theorem chaikin_smooth_degenerate_witness :
    chaikin_smooth (fun _ _ => true) none 5 = none ∧
    chaikin_smooth (fun _ _ => true) (some (Geometry.other "LineString")) 5
      = some (Geometry.other "LineString") ∧
    cutRing^[5] [((0 : ℚ), (0 : ℚ)), (1, 1)] = [((0 : ℚ), (0 : ℚ)), (1, 1)] :=
  ⟨(chaikin_smooth_degenerate (fun _ _ => true) 5).1,
   (chaikin_smooth_degenerate (fun _ _ => true) 5).2.1 "LineString",
   (chaikin_smooth_degenerate (fun _ _ => true) 5).2.2 _ (by decide)⟩

/-- C7: when constructing the smoothed polygon from the corner-cut exterior
and interior rings fails, smooth_polygon returns the original unmodified
polygon; smoothing is total and the result is always either the original
polygon or the fully smoothed one, never a partially smoothed polygon. -/
theorem smooth_polygon_fallback (valid : List Pt → List (List Pt) → Bool)
    (k : ℕ) (poly : RingPoly) :
    (valid (cutRing^[k] poly.exterior)
        (poly.interiors.map (fun r => cutRing^[k] r)) = false →
      smooth_polygon valid k poly = poly) ∧
    (smooth_polygon valid k poly = poly ∨
      smooth_polygon valid k poly =
        ⟨cutRing^[k] poly.exterior,
         poly.interiors.map (fun r => cutRing^[k] r)⟩) := by
  unfold smooth_polygon
  cases hv : valid (cutRing^[k] poly.exterior)
      (poly.interiors.map (fun r => cutRing^[k] r)) with
  | true => exact ⟨fun h => by simp_all, Or.inr (by simp [hv])⟩
  | false => exact ⟨fun _ => by simp [hv], Or.inl (by simp [hv])⟩

theorem smooth_polygon_fallback_witness :
    smooth_polygon (fun _ _ => false) 3
        ⟨[((0 : ℚ), (0 : ℚ)), (4, 0), (4, 4), (0, 4), (0, 0)], []⟩ =
      ⟨[((0 : ℚ), (0 : ℚ)), (4, 0), (4, 4), (0, 4), (0, 0)], []⟩ :=
  (smooth_polygon_fallback (fun _ _ => false) 3
    ⟨[((0 : ℚ), (0 : ℚ)), (4, 0), (4, 4), (0, 4), (0, 0)], []⟩).1 rfl

/-! ### Failure paths of the three operations -/

theorem computeCandidates_geocode_error (inp : CandInputs) (sel : List String)
    (gs r : ℚ) (tn : ℕ) (h : inp.geocode = Except.error ()) :
    computeCandidates inp sel gs r tn = [] := by
  unfold computeCandidates
  rw [h]

theorem computeCandidates_pois_short (inp : CandInputs) (sel : List String)
    (gs r : ℚ) (tn : ℕ) (area : Area) (hg : inp.geocode = Except.ok area)
    (hlen : (poisOf inp.fetch (catsOf sel) area).length < 3) :
    computeCandidates inp sel gs r tn = [] := by
  unfold computeCandidates
  rw [hg]
  by_cases hf : (poiFrames inp.fetch (catsOf sel)).isEmpty
  · simp [hf]
  · simp only [hf, if_false, Bool.false_eq_true]
    rw [if_pos hlen]

/-- C2 (amended): a geocoding failure, the failure or emptiness of every
category fetch, and a failed Overpass request with no usable local file all
yield the empty result set, and no exception escapes (every modelled
failure is consumed); but an individual category fetch failure is only
skipped, so it does not by itself empty the result. -/
theorem failure_suppression_empty_results :
    (∀ (inp : CandInputs) (sel : List String) (gs r : ℚ) (tn : ℕ),
      inp.geocode = Except.error () → computeCandidates inp sel gs r tn = []) ∧
    (∀ (inp : CandInputs) (sel : List String) (gs r : ℚ) (tn : ℕ),
      (∀ t : String,
        inp.fetch t = Except.error () ∨ inp.fetch t = Except.ok []) →
      computeCandidates inp sel gs r tn = []) ∧
    (∀ (geocode : String → Except Unit (List AreaFeat))
        (valid : List Pt → List (List Pt) → Bool) (name : String) (k : ℕ),
      (∀ q : String, geocode q = Except.error ()) →
      load_and_smooth_area geocode valid name k = []) ∧
    (∀ (fe : Bool) (fr : Except Unit (List String))
        (http : Except Unit (ℕ × List String)),
      fe = false ∨ fr = Except.error () → http = Except.error () →
      get_districts_for_state fe fr http = []) := by
  refine ⟨computeCandidates_geocode_error, ?_, ?_, ?_⟩
  · intro inp sel gs r tn h
    cases hg : inp.geocode with
    | error e => exact computeCandidates_geocode_error inp sel gs r tn (by rw [hg])
    | ok area =>
      have hframes : poiFrames inp.fetch (catsOf sel) = [] := by
        apply List.filterMap_eq_nil_iff.mpr
        intro t ht
        rcases h t with he | he
        · rw [he]
        · rw [he]
          rfl
      unfold computeCandidates
      rw [hg, hframes]
      rfl
  · intro geocode valid name k h
    simp only [load_and_smooth_area, h]
  · intro fe fr http h hh
    rcases h with rfl | rfl
    · unfold get_districts_for_state overpassLookup
      rw [if_neg (by simp), hh]
    · cases fe <;> unfold get_districts_for_state overpassLookup <;>
        simp [hh]

theorem failure_suppression_witness :
    computeCandidates ⟨Except.error (), exFetch, exKde, fun p => p⟩
      ["shops", "banks"] 250 500 12 = [] ∧
    computeCandidates ⟨Except.ok exArea, fun _ => Except.error (), exKde,
      fun p => p⟩ ["shops", "banks"] 250 500 12 = [] ∧
    load_and_smooth_area (fun _ => Except.error ()) (fun _ _ => true)
      "Karnataka" 3 = [] ∧
    get_districts_for_state false (Except.error ()) (Except.error ()) = [] :=
  ⟨failure_suppression_empty_results.1 _ _ 250 500 12 rfl,
   failure_suppression_empty_results.2.1 _ _ 250 500 12
     (fun _ => Or.inl rfl),
   failure_suppression_empty_results.2.2.1 _ _ "Karnataka" 3 (fun _ => rfl),
   failure_suppression_empty_results.2.2.2 false _ _ (Or.inl rfl) rfl⟩

/-- C2 as frozen is false on the code: in this run the fetch of the
selected category shops raises a network error, yet compute_candidates
does not return the empty FeatureCollection; the failing category is
skipped and a result is computed from the remaining category alone. -/
theorem failure_not_always_empty :
    exInp.fetch "shops" = Except.error () ∧
    computeCandidates exInp ["shops", "banks"] 250 500 12
      = [⟨(0.3 : ℚ), 3, (500, 500)⟩] :=
  ⟨rfl, by with_unfolding_all decide⟩

/-- C8: when fewer than 3 POI centroids fall inside the geocoded area
polygon after filtering, compute_candidates returns the empty
FeatureCollection, and the result does not depend on the density estimate,
which is never consulted on that path. -/
theorem computeCandidates_min_data (inp : CandInputs) (sel : List String)
    (gs r : ℚ) (tn : ℕ) (area : Area) (hg : inp.geocode = Except.ok area)
    (hlen : (poisOf inp.fetch (catsOf sel) area).length < 3) :
    computeCandidates inp sel gs r tn = [] ∧
    ∀ kde2 : List Pt → Pt → ℚ,
      computeCandidates ⟨inp.geocode, inp.fetch, kde2, inp.toWGS⟩
        sel gs r tn = [] :=
  ⟨computeCandidates_pois_short inp sel gs r tn area hg hlen,
   fun kde2 =>
     computeCandidates_pois_short ⟨inp.geocode, inp.fetch, kde2, inp.toWGS⟩
       sel gs r tn area hg hlen⟩

theorem foldl_min_le (l : List ℚ) : ∀ h : ℚ, l.foldl min h ≤ h := by
  induction l with
  | nil => intro h; exact le_refl h
  | cons x xs ih => intro h; exact le_trans (ih (min h x)) (min_le_left h x)

theorem le_foldl_max (l : List ℚ) : ∀ h : ℚ, h ≤ l.foldl max h := by
  induction l with
  | nil => intro h; exact le_refl h
  | cons x xs ih => intro h; exact le_trans (le_max_left h x) (ih (max h x))

theorem qminList_le_qmaxList (l : List ℚ) (h : l ≠ []) :
    qminList l ≤ qmaxList l := by
  cases l with
  | nil => exact absurd rfl h
  | cons x xs => exact le_trans (foldl_min_le xs x) (le_foldl_max xs x)

/-- C6: among the candidates of one run, with equal raw density scores the
candidate with the larger competitor count never receives a strictly larger
final score, so it is never ranked above the other by final score. -/
theorem penalized_not_ranked_above (cands : List Candidate) (a b : Candidate)
    (ha : a ∈ cands) (_hb : b ∈ cands) (hs : a.score = b.score)
    (hc : b.competitors ≤ a.competitors) :
    finalScore cands a ≤ finalScore cands b := by
  have hne : cands.map (fun d => ((d.competitors : ℚ))) ≠ [] := by
    intro h
    exact List.ne_nil_of_mem ha (List.map_eq_nil_iff.mp h)
  have hmm := qminList_le_qmaxList _ hne
  have heps : (0 : ℚ) < epsDiv := by norm_num [epsDiv]
  have hnum : ((b.competitors : ℚ)) ≤ ((a.competitors : ℚ)) := by
    exact_mod_cast hc
  unfold finalScore
  rw [hs]
  gcongr
  linarith

theorem penalized_not_ranked_above_witness :
    finalScore exCands ⟨0, 0, 1, 5⟩ ≤ finalScore exCands ⟨1, 1, 1, 2⟩ :=
  penalized_not_ranked_above exCands ⟨0, 0, 1, 5⟩ ⟨1, 1, 1, 2⟩
    (by with_unfolding_all decide) (by with_unfolding_all decide)
    rfl (by decide)

theorem computeCandidates_min_data_witness :
    computeCandidates exInpTwo ["shops", "banks"] 250 500 12 = [] ∧
    ∀ kde2 : List Pt → Pt → ℚ,
      computeCandidates ⟨exInpTwo.geocode, exInpTwo.fetch, kde2,
        exInpTwo.toWGS⟩ ["shops", "banks"] 250 500 12 = [] :=
  computeCandidates_min_data exInpTwo ["shops", "banks"] 250 500 12 exArea
    rfl (by with_unfolding_all decide)

/-- C9: for every input the emitted FeatureCollection has at most top_n
features, and every feature consists of exactly a final score, a competitor
count and a point geometry obtained by reprojecting a candidate peak to
EPSG:4326. -/
theorem output_shape (inp : CandInputs) (sel : List String) (gs r : ℚ)
    (tn : ℕ) :
    (computeCandidates inp sel gs r tn).length ≤ tn ∧
    ∀ f ∈ computeCandidates inp sel gs r tn,
      ∃ (area : Area) (c : Candidate) (q : ℚ),
        inp.geocode = Except.ok area ∧
        c ∈ candsOf inp area sel gs r ∧
        f = ⟨q, c.competitors, inp.toWGS (c.x, c.y)⟩ := by
  unfold computeCandidates
  cases hg : inp.geocode with
  | error e => exact ⟨by simp, by simp⟩
  | ok area =>
    dsimp only
    by_cases h1 : (poiFrames inp.fetch (catsOf sel)).isEmpty
    · rw [if_pos h1]; exact ⟨by simp, by simp⟩
    rw [if_neg h1]
    by_cases h2 : (poisOf inp.fetch (catsOf sel) area).length < 3
    · rw [if_pos h2]; exact ⟨by simp, by simp⟩
    rw [if_neg h2]
    by_cases h3 : ((xvOf area gs).isEmpty || (yvOf area gs).isEmpty) = true
    · rw [if_pos h3]; exact ⟨by simp, by simp⟩
    rw [if_neg h3]
    by_cases h4 : (candsOf inp area sel gs r).isEmpty
    · rw [if_pos h4]; exact ⟨by simp, by simp⟩
    rw [if_neg h4]
    constructor
    · rw [List.length_map]
      exact List.length_take_le tn _
    · intro f hf
      rcases List.mem_map.mp hf with ⟨p, hp, hfp⟩
      have hp2 : p ∈ sortStable (fun a b => decide (b.2 ≤ a.2))
          (scoredOf inp area sel gs r) := List.take_subset tn _ hp
      have hp3 : p ∈ scoredOf inp area sel gs r :=
        (mem_sortStable _ p _).mp hp2
      rcases List.mem_map.mp hp3 with ⟨c, hc, hcp⟩
      exact ⟨area, c, p.2, rfl, hc, by rw [← hfp, ← hcp]⟩

theorem output_shape_witness :
    (computeCandidates exInp ["shops", "banks"] 250 500 12).length ≤ 12 ∧
    ∃ (area : Area) (c : Candidate) (q : ℚ),
      exInp.geocode = Except.ok area ∧
      c ∈ candsOf exInp area ["shops", "banks"] 250 500 ∧
      (⟨(0.3 : ℚ), 3, (500, 500)⟩ : Feature)
        = ⟨q, c.competitors, exInp.toWGS (c.x, c.y)⟩ :=
  ⟨(output_shape exInp ["shops", "banks"] 250 500 12).1,
   (output_shape exInp ["shops", "banks"] 250 500 12).2
     ⟨(0.3 : ℚ), 3, (500, 500)⟩ (by with_unfolding_all decide)⟩

theorem candsOf_competitors (inp : CandInputs) (area : Area)
    (sel : List String) (gs r : ℚ) (c : Candidate)
    (hc : c ∈ candsOf inp area sel gs r) :
    c.competitors = (poisOf inp.fetch (catsOf sel) area).countP
      (fun q => decide (distSq q (c.x, c.y) < r^2)) := by
  simp only [candsOf, rawCandidates] at hc
  rcases List.mem_map.mp hc with ⟨yx, hyx, hcy⟩
  rw [← hcy]

theorem mem_computeCandidates (inp : CandInputs) (sel : List String)
    (gs r : ℚ) (tn : ℕ) (f : Feature)
    (hf : f ∈ computeCandidates inp sel gs r tn) :
    ∃ (area : Area) (c : Candidate),
      inp.geocode = Except.ok area ∧
      c ∈ candsOf inp area sel gs r ∧
      f = ⟨finalScore (candsOf inp area sel gs r) c, c.competitors,
           inp.toWGS (c.x, c.y)⟩ := by
  unfold computeCandidates at hf
  cases hg : inp.geocode with
  | error e => rw [hg] at hf; simp at hf
  | ok area =>
    rw [hg] at hf
    dsimp only at hf
    by_cases h1 : (poiFrames inp.fetch (catsOf sel)).isEmpty
    · rw [if_pos h1] at hf; simp at hf
    rw [if_neg h1] at hf
    by_cases h2 : (poisOf inp.fetch (catsOf sel) area).length < 3
    · rw [if_pos h2] at hf; simp at hf
    rw [if_neg h2] at hf
    by_cases h3 : ((xvOf area gs).isEmpty || (yvOf area gs).isEmpty) = true
    · rw [if_pos h3] at hf; simp at hf
    rw [if_neg h3] at hf
    by_cases h4 : (candsOf inp area sel gs r).isEmpty
    · rw [if_pos h4] at hf; simp at hf
    rw [if_neg h4] at hf
    rcases List.mem_map.mp hf with ⟨p, hp, hfp⟩
    have hp3 : p ∈ scoredOf inp area sel gs r :=
      (mem_sortStable _ p _).mp (List.take_subset tn _ hp)
    rcases List.mem_map.mp hp3 with ⟨c, hc, hcp⟩
    exact ⟨area, c, rfl, hc, by rw [← hfp, ← hcp]⟩

/-- C5: every emitted candidate peak's competitor count equals the number
of POI centroids strictly within the circular buffer of radius
competitor_radius around the peak's (pre-reprojection) location. -/
theorem competitor_count_correct (inp : CandInputs) (sel : List String)
    (gs r : ℚ) (tn : ℕ) (area : Area) (hg : inp.geocode = Except.ok area) :
    ∀ f ∈ computeCandidates inp sel gs r tn,
      ∃ c ∈ candsOf inp area sel gs r,
        f.geometry = inp.toWGS (c.x, c.y) ∧
        f.competitors = (poisOf inp.fetch (catsOf sel) area).countP
          (fun q => decide (distSq q (c.x, c.y) < r^2)) := by
  intro f hf
  rcases mem_computeCandidates inp sel gs r tn f hf with
    ⟨area2, c, hg2, hc, rfl⟩
  rw [hg] at hg2
  injection hg2 with h
  subst h
  exact ⟨c, hc, rfl, candsOf_competitors inp area sel gs r c hc⟩

theorem competitor_count_correct_witness :
    ∃ c ∈ candsOf exInp exArea ["shops", "banks"] 250 500,
      (⟨(0.3 : ℚ), 3, (500, 500)⟩ : Feature).geometry
        = exInp.toWGS (c.x, c.y) ∧
      (⟨(0.3 : ℚ), 3, (500, 500)⟩ : Feature).competitors
        = (poisOf exInp.fetch (catsOf ["shops", "banks"]) exArea).countP
            (fun q => decide (distSq q (c.x, c.y) < 500^2)) :=
  competitor_count_correct exInp ["shops", "banks"] 250 500 12 exArea rfl
    ⟨(0.3 : ℚ), 3, (500, 500)⟩ (by with_unfolding_all decide)

/-- C1: for a non-empty candidate list, each candidate's final score is
0.7 times the min-max normalized raw density score (divisor padded with
1e-9) plus 0.3 times one minus the min-max normalized competitor count
(same padding), and the emitted features are exactly the scored candidates
in descending order of final score truncated to the first top_n; in
particular the emitted final scores are pairwise descending. -/
theorem final_linear_combination_and_ranking (inp : CandInputs)
    (sel : List String) (gs r : ℚ) (tn : ℕ) (area : Area)
    (hg : inp.geocode = Except.ok area)
    (h1 : ¬(poiFrames inp.fetch (catsOf sel)).isEmpty = true)
    (h2 : ¬(poisOf inp.fetch (catsOf sel) area).length < 3)
    (h3 : ¬((xvOf area gs).isEmpty || (yvOf area gs).isEmpty) = true)
    (h4 : candsOf inp area sel gs r ≠ []) :
    computeCandidates inp sel gs r tn =
      ((sortStable (fun a b => decide (b.2 ≤ a.2))
        ((candsOf inp area sel gs r).map (fun c =>
          (c, (0.7 : ℚ) *
            ((c.score -
              qminList ((candsOf inp area sel gs r).map (fun d => d.score))) /
             (qmaxList ((candsOf inp area sel gs r).map (fun d => d.score)) -
              qminList ((candsOf inp area sel gs r).map (fun d => d.score)) +
              1 / 1000000000)) +
           (0.3 : ℚ) * (1 -
            ((c.competitors : ℚ) -
              qminList ((candsOf inp area sel gs r).map
                (fun d => (d.competitors : ℚ)))) /
             (qmaxList ((candsOf inp area sel gs r).map
                (fun d => (d.competitors : ℚ))) -
              qminList ((candsOf inp area sel gs r).map
                (fun d => (d.competitors : ℚ))) +
              1 / 1000000000)))))).take tn).map
        (fun p => ⟨p.2, p.1.competitors, inp.toWGS (p.1.x, p.1.y)⟩) ∧
    (computeCandidates inp sel gs r tn).Pairwise
      (fun f g => g.final ≤ f.final) := by
  have hne : (candsOf inp area sel gs r).isEmpty = false := by
    simp [List.isEmpty_iff, h4]
  have heq : computeCandidates inp sel gs r tn =
      ((sortStable (fun a b => decide (b.2 ≤ a.2))
        (scoredOf inp area sel gs r)).take tn).map
        (fun p => (⟨p.2, p.1.competitors, inp.toWGS (p.1.x, p.1.y)⟩ :
          Feature)) := by
    unfold computeCandidates
    rw [hg]
    dsimp only
    rw [if_neg h1, if_neg h2, if_neg h3, if_neg (by simp [hne])]
  constructor
  · rw [heq]
    rfl
  · rw [heq, List.pairwise_map]
    dsimp only
    exact List.Pairwise.sublist (List.take_sublist tn _)
      (pairwise_sortStable_key (fun p : Candidate × ℚ => p.2) _)

theorem final_linear_combination_and_ranking_witness :
    computeCandidates exInp ["shops", "banks"] 250 500 12 =
      ((sortStable (fun a b => decide (b.2 ≤ a.2))
        ((candsOf exInp exArea ["shops", "banks"] 250 500).map (fun c =>
          (c, (0.7 : ℚ) *
            ((c.score -
              qminList ((candsOf exInp exArea ["shops", "banks"] 250 500).map
                (fun d => d.score))) /
             (qmaxList ((candsOf exInp exArea ["shops", "banks"] 250 500).map
                (fun d => d.score)) -
              qminList ((candsOf exInp exArea ["shops", "banks"] 250 500).map
                (fun d => d.score)) +
              1 / 1000000000)) +
           (0.3 : ℚ) * (1 -
            ((c.competitors : ℚ) -
              qminList ((candsOf exInp exArea ["shops", "banks"] 250 500).map
                (fun d => (d.competitors : ℚ)))) /
             (qmaxList ((candsOf exInp exArea ["shops", "banks"] 250 500).map
                (fun d => (d.competitors : ℚ))) -
              qminList ((candsOf exInp exArea ["shops", "banks"] 250 500).map
                (fun d => (d.competitors : ℚ))) +
              1 / 1000000000)))))).take 12).map
        (fun p => ⟨p.2, p.1.competitors, exInp.toWGS (p.1.x, p.1.y)⟩) ∧
    (computeCandidates exInp ["shops", "banks"] 250 500 12).Pairwise
      (fun f g => g.final ≤ f.final) :=
  final_linear_combination_and_ranking exInp ["shops", "banks"] 250 500 12
    exArea rfl (by with_unfolding_all decide) (by with_unfolding_all decide)
    (by with_unfolding_all decide) (by with_unfolding_all decide)

theorem reflectIdx_add_neg_one (n yi : ℕ) (h : yi < n) :
    reflectIdx n ((yi : ℤ) + -1) = yi - 1 := by
  unfold reflectIdx
  split_ifs <;> omega

theorem reflectIdx_add_zero (n yi : ℕ) (h : yi < n) :
    reflectIdx n ((yi : ℤ) + 0) = yi := by
  unfold reflectIdx
  split_ifs <;> omega

theorem reflectIdx_add_one (n yi : ℕ) (h : yi < n) :
    reflectIdx n ((yi : ℤ) + 1) = min (n - 1) (yi + 1) := by
  unfold reflectIdx
  split_ifs <;> omega

theorem maxFilter3_eq_clamped (Z : List (List ℚ)) (yi xi : ℕ)
    (hy : yi < Z.length) (hx : xi < (Z.getD 0 []).length) :
    maxFilter3 Z yi xi =
      qmaxList [zAt Z (yi - 1) (xi - 1), zAt Z (yi - 1) xi,
        zAt Z (yi - 1) (min ((Z.getD 0 []).length - 1) (xi + 1)),
        zAt Z yi (xi - 1), zAt Z yi xi,
        zAt Z yi (min ((Z.getD 0 []).length - 1) (xi + 1)),
        zAt Z (min (Z.length - 1) (yi + 1)) (xi - 1),
        zAt Z (min (Z.length - 1) (yi + 1)) xi,
        zAt Z (min (Z.length - 1) (yi + 1))
          (min ((Z.getD 0 []).length - 1) (xi + 1))] := by
  unfold maxFilter3 nbhdOffsets
  simp only [List.map_cons, List.map_nil]
  rw [reflectIdx_add_neg_one _ _ hy, reflectIdx_add_zero _ _ hy,
      reflectIdx_add_one _ _ hy, reflectIdx_add_neg_one _ _ hx,
      reflectIdx_add_zero _ _ hx, reflectIdx_add_one _ _ hx]

theorem mem_peakIndices (Z : List (List ℚ)) (perc : ℚ) (yi xi : ℕ) :
    (yi, xi) ∈ peakIndices Z perc ↔
      yi < Z.length ∧ xi < (Z.getD 0 []).length ∧
      zAt Z yi xi = maxFilter3 Z yi xi ∧ perc < zAt Z yi xi := by
  unfold peakIndices
  constructor
  · intro hmem
    rcases List.mem_flatten.mp hmem with ⟨l, hl, hml⟩
    rcases List.mem_map.mp hl with ⟨yi2, hyi2, rfl⟩
    rw [List.mem_range] at hyi2
    rcases List.mem_filterMap.mp hml with ⟨xi2, hxi2, hsome⟩
    rw [List.mem_range] at hxi2
    by_cases hp : zAt Z yi2 xi2 = maxFilter3 Z yi2 xi2 ∧ perc < zAt Z yi2 xi2
    · rw [if_pos hp] at hsome
      injection hsome with hpair
      injection hpair with e1 e2
      subst e1
      subst e2
      exact ⟨hyi2, hxi2, hp⟩
    · rw [if_neg hp] at hsome
      exact absurd hsome (Option.some_ne_none _).symm
  · rintro ⟨hy, hx, hp⟩
    apply List.mem_flatten.mpr
    refine ⟨_, List.mem_map.mpr ⟨yi, List.mem_range.mpr hy, rfl⟩, ?_⟩
    exact List.mem_filterMap.mpr ⟨xi, List.mem_range.mpr hx, by rw [if_pos hp]⟩

/-- C4: a grid cell becomes a candidate peak exactly when its density value
equals the maximum of its 3x3 neighborhood, as computed by the size-3
maximum filter, and is strictly greater than the 75th percentile of all
grid density values.  The neighborhood maximum is written here with
explicitly clamped indices, which the reflect boundary mode of the size-3
filter coincides with. -/
theorem local_max_characterization (Z : List (List ℚ)) (perc : ℚ)
    (yi xi : ℕ) (hy : yi < Z.length) (hx : xi < (Z.getD 0 []).length) :
    (yi, xi) ∈ peakIndices Z perc ↔
      zAt Z yi xi =
        qmaxList [zAt Z (yi - 1) (xi - 1), zAt Z (yi - 1) xi,
          zAt Z (yi - 1) (min ((Z.getD 0 []).length - 1) (xi + 1)),
          zAt Z yi (xi - 1), zAt Z yi xi,
          zAt Z yi (min ((Z.getD 0 []).length - 1) (xi + 1)),
          zAt Z (min (Z.length - 1) (yi + 1)) (xi - 1),
          zAt Z (min (Z.length - 1) (yi + 1)) xi,
          zAt Z (min (Z.length - 1) (yi + 1))
            (min ((Z.getD 0 []).length - 1) (xi + 1))] ∧
      perc < zAt Z yi xi := by
  rw [mem_peakIndices, maxFilter3_eq_clamped Z yi xi hy hx]
  exact ⟨fun h => ⟨h.2.2.1, h.2.2.2⟩, fun h => ⟨hy, hx, h.1, h.2⟩⟩

theorem local_max_characterization_witness :
    (1, 1) ∈ peakIndices exZ 1 ↔
      zAt exZ 1 1 =
        qmaxList [zAt exZ 0 0, zAt exZ 0 1,
          zAt exZ 0 (min ((exZ.getD 0 []).length - 1) 2),
          zAt exZ 1 0, zAt exZ 1 1,
          zAt exZ 1 (min ((exZ.getD 0 []).length - 1) 2),
          zAt exZ (min (exZ.length - 1) 2) 0,
          zAt exZ (min (exZ.length - 1) 2) 1,
          zAt exZ (min (exZ.length - 1) 2)
            (min ((exZ.getD 0 []).length - 1) 2)] ∧
      (1 : ℚ) < zAt exZ 1 1 :=
  local_max_characterization exZ 1 1 1 (by decide) (by decide)

theorem zip_tail_eq_range {α : Type} (d : α) (c : List α) :
    c.zip c.tail = (List.range (c.length - 1)).map
      (fun i => (c.getD i d, c.getD (i + 1) d)) := by
  induction c with
  | nil => simp
  | cons a t ih =>
    cases t with
    | nil => simp
    | cons b t2 =>
      rw [List.tail_cons, List.zip_cons_cons]
      rw [List.tail_cons] at ih
      rw [ih]
      rw [show (a :: b :: t2).length - 1 = ((b :: t2).length - 1) + 1 by
        simp]
      rw [List.range_succ_eq_map, List.map_cons, List.map_map]
      simp only [List.cons.injEq]
      refine ⟨rfl, ?_⟩
      apply List.map_congr_left
      intro i hi
      simp [List.getD_cons_succ, Function.comp]

theorem getD_zero_eq_getD_last {α : Type} (d : α) (c : List α)
    (_hne : c ≠ []) (hc : c.head? = c.getLast?) :
    c.getD 0 d = c.getD (c.length - 1) d := by
  rw [List.head?_eq_getElem?, List.getLast?_eq_getElem?] at hc
  rw [List.getD_eq_getElem?_getD, List.getD_eq_getElem?_getD, hc]

theorem cutPairs_eq_specPairs (c : List Pt) (hc : IsClosedRing c) :
    cutPairs c = specPairs c := by
  unfold cutPairs specPairs
  rw [zip_tail_eq_range (0, 0) c, List.map_map]
  congr 1
  apply List.map_congr_left
  intro i hi
  rw [List.mem_range] at hi
  by_cases he : i + 1 < c.length - 1
  · rw [Nat.mod_eq_of_lt he]
    rfl
  · have he2 : i + 1 = c.length - 1 := by omega
    have hne : c ≠ [] := by
      intro h
      rw [h] at hi
      simp at hi
    rw [he2, Nat.mod_self]
    have hgd := getD_zero_eq_getD_last (0, 0) c hne hc
    rw [← he2] at hgd
    rw [hgd]
    rfl

theorem sum_map_two (m : ℕ) :
    ((List.range m).map (fun _ => (2 : ℕ))).sum = 2 * m := by
  induction m with
  | zero => rfl
  | succ n ih =>
    rw [List.range_succ, List.map_append, List.sum_append, ih]
    simp
    omega

theorem cutPairs_length (c : List Pt) :
    (cutPairs c).length = 2 * (c.length - 1) := by
  unfold cutPairs
  rw [List.length_flatten, List.map_map]
  have : (List.range (c.length - 1)).map
      ((fun l : List Pt => l.length) ∘ (fun i =>
        chaikinQR (c.getD i (0, 0))
          (c.getD ((i + 1) % (c.length - 1)) (0, 0)))) =
      (List.range (c.length - 1)).map (fun _ => 2) := by
    apply List.map_congr_left
    intro i _
    rfl
  rw [this, sum_map_two]

theorem cutRing_length (c : List Pt) (h3 : 3 ≤ c.length) :
    (cutRing c).length = 2 * (c.length - 1) + 1 := by
  unfold cutRing
  rw [if_neg (by omega)]
  rw [List.length_append, cutPairs_length]
  rfl

theorem cutRing_closed (c : List Pt) (h3 : 3 ≤ c.length) :
    IsClosedRing (cutRing c) := by
  have hne : cutPairs c ≠ [] := by
    intro h
    have := cutPairs_length c
    rw [h] at this
    simp at this
    omega
  unfold cutRing IsClosedRing
  rw [if_neg (by omega)]
  rw [List.getLast?_concat]
  cases hp : cutPairs c with
  | nil => exact absurd hp hne
  | cons x xs =>
    rw [List.cons_append, List.head?_cons]
    simp [List.headD]

theorem cutRing_eq_specCut (c : List Pt) (h3 : 3 ≤ c.length)
    (hc : IsClosedRing c) : cutRing c = specCut c := by
  unfold cutRing specCut
  rw [if_neg (by omega), cutPairs_eq_specPairs c hc]

theorem iterate_cutRing_eq_specCut (k : ℕ) : ∀ c : List Pt,
    3 ≤ c.length → IsClosedRing c → cutRing^[k] c = specCut^[k] c := by
  induction k with
  | zero => intro c _ _; rfl
  | succ n ih =>
    intro c h3 hc
    rw [Function.iterate_succ_apply, Function.iterate_succ_apply]
    calc cutRing^[n] (cutRing c)
        = specCut^[n] (cutRing c) :=
          ih (cutRing c) (by rw [cutRing_length c h3]; omega)
            (cutRing_closed c h3)
      _ = specCut^[n] (specCut c) := by
          rw [cutRing_eq_specCut c h3 hc]

/-- C3: for every polygon whose rings are genuine closed rings, and every
iteration count, when the smoothed polygon is constructed successfully its
exterior ring and each interior ring are exactly the result of applying,
independently and the given number of times, the corner-cutting pass in
which each edge (p0, p1) of the closed ring is replaced by the points
0.75*p0 + 0.25*p1 and 0.25*p0 + 0.75*p1 and the ring is closed by
appending its first point (the pass specCut, written from the claim). -/
theorem chaikin_pass_is_corner_cutting
    (valid : List Pt → List (List Pt) → Bool) (k : ℕ) (poly : RingPoly)
    (hval : valid (cutRing^[k] poly.exterior)
      (poly.interiors.map (fun r => cutRing^[k] r)) = true)
    (hext3 : 3 ≤ poly.exterior.length) (hextc : IsClosedRing poly.exterior)
    (hints : ∀ r ∈ poly.interiors, 3 ≤ r.length ∧ IsClosedRing r) :
    (smooth_polygon valid k poly).exterior = specCut^[k] poly.exterior ∧
    (smooth_polygon valid k poly).interiors =
      poly.interiors.map (fun r => specCut^[k] r) := by
  unfold smooth_polygon
  rw [if_pos hval]
  constructor
  · exact iterate_cutRing_eq_specCut k poly.exterior hext3 hextc
  · apply List.map_congr_left
    intro r hr
    exact iterate_cutRing_eq_specCut k r (hints r hr).1 (hints r hr).2

theorem chaikin_pass_is_corner_cutting_witness :
    (smooth_polygon (fun _ _ => true) 2 exSquare).exterior
      = specCut^[2] exSquare.exterior ∧
    (smooth_polygon (fun _ _ => true) 2 exSquare).interiors
      = exSquare.interiors.map (fun r => specCut^[2] r) :=
  chaikin_pass_is_corner_cutting (fun _ _ => true) 2 exSquare rfl
    (by decide) rfl (fun r hr => absurd hr (List.not_mem_nil r))

end SiteSelector
